import Mathlib

/-!
Verification of the JoyFood gmail-crawler core logic.

This file gives a shallow embedding, in Lean 4, of the pure logic of the
repository:

* `gmail_crawler/utils/utils.py`:
  - `parse_date_from_subject` (regex-based date extraction from a subject
    line, three patterns tried in order);
  - `find_message_by_date` (first candidate whose parsed date equals the
    target);
  - `find_latest_message` (stable descending sort by parsed date, head).
* `gmail_crawler/services/json_to_excel.py`:
  - `JSONToExcelConverter._normalize_rows` and `json_tables_to_excel`
    (table normalization to a rectangular shape, validation of the
    `tables` field, and the exception-translation wrapper).

Python strings are modelled as `List Char` (code-point sequences, which is
what Python compares and what the regexes walk), `re.search` as a scan for
the leftmost position at which the (backtracking) pattern matches,
`datetime.strptime(s, "%Y%m%d")` validity as an explicit calendar check,
and `datetime.now().year` as an explicit `currentYear : Nat` parameter.
Exceptions are modelled with `Except`.
-/

namespace JoyFood

/-- Interpretation of a list of decimal digit characters as a
natural number (the way `int(...)`/`strptime` read a digit group). -/
def digits_to_nat (l : List Char) : Nat :=
  l.foldl (fun acc c => acc * 10 + (c.toNat - '0'.toNat)) 0

/-- Matcher for the regex fragment `(\d{1,2})X` at the start of the input,
where `X` is the marker character (`'월'` or `'일'`): Python's greedy
`\d{1,2}` first tries to take two digits and, if the marker does not follow,
backtracks to one digit.  Returns the digit group and the rest of the input
after the marker. -/
def matchDigits12 (marker : Char) : List Char → Option (List Char × List Char)
  | c1 :: c2 :: c3 :: rest =>
    if c1.isDigit ∧ c2.isDigit ∧ c3 = marker then some ([c1, c2], rest)
    else if c1.isDigit ∧ c2 = marker then some ([c1], c3 :: rest)
    else none
  | c1 :: c2 :: [] =>
    if c1.isDigit ∧ c2 = marker then some ([c1], []) else none
  | _ => none

/-- Matcher for pattern 1, `(\d{4})년(\d{1,2})월(\d{1,2})일`, anchored at the
start of the input.  Returns the `(year, month, day)` digit groups. -/
def matchP1At : List Char → Option (List Char × List Char × List Char)
  | y1 :: y2 :: y3 :: y4 :: c :: rest =>
    if y1.isDigit ∧ y2.isDigit ∧ y3.isDigit ∧ y4.isDigit ∧ c = '년' then
      match matchDigits12 '월' rest with
      | some (m, rest2) =>
        match matchDigits12 '일' rest2 with
        | some (d, _) => some ([y1, y2, y3, y4], m, d)
        | none => none
      | none => none
    else none
  | _ => none

/-- Search for pattern 1 (the `re.search` scan): try `matchP1At` at each position from the
left, returning the first (leftmost) successful match. -/
def searchP1 : List Char → Option (List Char × List Char × List Char)
  | [] => none
  | c :: rest =>
    match matchP1At (c :: rest) with
    | some r => some r
    | none => searchP1 rest

/-- Matcher for pattern 2, `(\d{8})`, anchored at the start of the input:
succeeds iff the next eight characters are all digits (no boundary
requirement on either side). -/
def matchP2At (l : List Char) : Option (List Char) :=
  if (l.take 8).length = 8 ∧ (l.take 8).all Char.isDigit then some (l.take 8)
  else none

/-- Search for pattern 2 (the `re.search` scan): leftmost run of eight consecutive digits. -/
def searchP2 : List Char → Option (List Char)
  | [] => none
  | c :: rest =>
    match matchP2At (c :: rest) with
    | some r => some r
    | none => searchP2 rest

/-- Matcher for pattern 3, `(\d{1,2})월(\d{1,2})일`, anchored at the start
of the input.  Returns the `(month, day)` digit groups. -/
def matchP3At (l : List Char) : Option (List Char × List Char) :=
  match matchDigits12 '월' l with
  | some (m, rest) =>
    match matchDigits12 '일' rest with
    | some (d, _) => some (m, d)
    | none => none
  | none => none

/-- Search for pattern 3 (the `re.search` scan): leftmost match of `(\d{1,2})월(\d{1,2})일`. -/
def searchP3 : List Char → Option (List Char × List Char)
  | [] => none
  | c :: rest =>
    match matchP3At (c :: rest) with
    | some r => some r
    | none => searchP3 rest

/-- Gregorian leap-year test, as used by `datetime`. -/
def isLeapYear (y : Nat) : Bool :=
  (y % 4 = 0 ∧ y % 100 ≠ 0) ∨ y % 400 = 0

/-- Number of days in month `m` of year `y` (months 1..12). -/
def daysInMonth (y m : Nat) : Nat :=
  if m = 2 then (if isLeapYear y then 29 else 28)
  else if m = 1 ∨ m = 3 ∨ m = 5 ∨ m = 7 ∨ m = 8 ∨ m = 10 ∨ m = 12 then 31
  else 30

/-- Calendar validity of an 8-digit string under
`datetime.strptime(s, "%Y%m%d")`: because `%Y` consumes exactly four digits
and the whole string must be consumed, the split is positional; the
resulting year must be at least `MINYEAR = 1`, the month in 1..12 and the
day in range for that month. -/
def validDate8 (l : List Char) : Bool :=
  let y := digits_to_nat (l.take 4)
  let m := digits_to_nat ((l.drop 4).take 2)
  let d := digits_to_nat (l.drop 6)
  1 ≤ y ∧ 1 ≤ m ∧ m ≤ 12 ∧ 1 ≤ d ∧ d ≤ daysInMonth y m

/-- Model of `str.zfill(2)`: left-pad with `'0'` to length two. -/
def zfill2 (l : List Char) : List Char :=
  List.replicate (2 - l.length) '0' ++ l

/-- The pattern-3 tail of `parse_date_from_subject`: on a match of
`(\d{1,2})월(\d{1,2})일`, return the current year (decimal rendering of
`datetime.now().year`) followed by the zero-padded month and day; otherwise
`None`. -/
def pattern3Result (currentYear : Nat) (cs : List Char) : Option (List Char) :=
  match searchP3 cs with
  | some (m, d) => some ((toString currentYear).toList ++ zfill2 m ++ zfill2 d)
  | none => none

/-- Core of `parse_date_from_subject` on the character sequence of the subject:
pattern 1 (`\d{4}년\d{1,2}월\d{1,2}일`, no calendar check) first; then
pattern 2 (first 8-digit run, kept only if calendar-valid, otherwise the
pattern is abandoned); then pattern 3 (`\d{1,2}월\d{1,2}일` with the current
year substituted); otherwise `None`. -/
def parseDateChars (currentYear : Nat) (cs : List Char) : Option (List Char) :=
  match searchP1 cs with
  | some (y, m, d) => some (y ++ zfill2 m ++ zfill2 d)
  | none =>
    match searchP2 cs with
    | some ds =>
      if validDate8 ds then some ds else pattern3Result currentYear cs
    | none => pattern3Result currentYear cs

/-- Wrapper `parse_date_from_subject(subject)`, with `datetime.now().year` made an
explicit parameter. -/
def parse_date_from_subject (currentYear : Nat) (subject : String) : Option String :=
  (parseDateChars currentYear subject.toList).map String.mk

example : parse_date_from_subject 2030 "(조이푸드)금일2편/익일1편 2025년09월04일(2편) ~ 09월05일(1편)" = some "20250904" := by decide
example : parse_date_from_subject 2030 "삼립_푸드코아 확정주문 및 센터 별 픽업수량 안내 / SO 납품일 : 20250902" = some "20250902" := by decide
example : parse_date_from_subject 2025 "일반 제목 09월04일 테스트" = some "20250904" := by decide
example : parse_date_from_subject 2025 "일반 제목입니다" = none := by decide

/-! Message selection (`find_message_by_date`, `find_latest_message`) -/

/-- A candidate message dictionary: the model keeps the `'subject'` entry
(possibly absent, as `dict.get('subject', '')` tolerates) and an opaque
payload distinguishing candidates. -/
structure Msg where
  subject? : Option String
  payload : Nat
deriving DecidableEq, Repr

/-- Model of `msg_data.get('subject', '')`: the subject, or the empty string when the
key is absent. -/
def getSubject (m : Msg) : String :=
  m.subject?.getD ""

/-- Model of Python `x or y` on strings: `y` when `x` is falsy (empty), else `x`. -/
def pyOr (x default : List Char) : List Char :=
  if x.isEmpty then default else x

/-- The sort key of `find_latest_message`:
`parse_date_from_subject(x.get('subject', '')) or '00000000'`. -/
def sortKey (currentYear : Nat) (m : Msg) : List Char :=
  pyOr ((parseDateChars currentYear (getSubject m).toList).getD []) "00000000".toList

/-- Lexicographic order on code-point sequences — the `str` ordering,
which `sorted` uses on the key strings. -/
def lexLe : List Char → List Char → Bool
  | [], _ => true
  | _ :: _, [] => false
  | a :: as, b :: bs =>
    if a.toNat < b.toNat then true
    else if b.toNat < a.toNat then false
    else lexLe as bs

/-- Model of `find_message_by_date(messages_data, target_date)`: scan in order and
return the first message whose parsed subject date equals the target. -/
def find_message_by_date (currentYear : Nat) (msgs : List Msg) (target : String) :
    Option Msg :=
  match msgs with
  | [] => none
  | m :: rest =>
    if parseDateChars currentYear (getSubject m).toList = some target.toList then some m
    else find_message_by_date currentYear rest target

/-- One insertion step of a stable descending sort by `sortKey`: insert `m`
in front of the first element whose key is `≤` its own, so that among equal
keys earlier input elements stay first — the ordering Python's stable
`sorted(..., reverse=True)` produces. -/
def insertDesc (currentYear : Nat) (m : Msg) : List Msg → List Msg
  | [] => [m]
  | x :: xs =>
    if lexLe (sortKey currentYear x) (sortKey currentYear m) then m :: x :: xs
    else x :: insertDesc currentYear m xs

/-- Stable descending sort by `sortKey`, modelling
`sorted(messages_data, key=..., reverse=True)`. -/
def sortDesc (currentYear : Nat) : List Msg → List Msg
  | [] => []
  | m :: ms => insertDesc currentYear m (sortDesc currentYear ms)

/-- Model of `find_latest_message(messages_data)`: `None` on an empty list, otherwise
the first element of the stable descending sort. -/
def find_latest_message (currentYear : Nat) (msgs : List Msg) : Option Msg :=
  if msgs.isEmpty then none
  else (sortDesc currentYear msgs).head?

/-- Reference recursion for the head of the descending sort: keep the
earlier element unless a strictly greater key appears. -/
def selectLatest (currentYear : Nat) : List Msg → Option Msg
  | [] => none
  | m :: ms =>
    match selectLatest currentYear ms with
    | none => some m
    | some b =>
      if lexLe (sortKey currentYear b) (sortKey currentYear m) then some m else some b

/-! JSON-tables-to-Excel conversion (`json_to_excel.py`) -/

/-- A table cell: a JSON value or `null` (`None`). -/
abbrev Cell := Option String

/-- One table of the parsed JSON document, after the
`table.get("headers") or []` / `table.get("rows") or []` coercions (a
missing or falsy field is the empty list). -/
structure PyTable where
  headers : List String
  rows : List (List Cell)
deriving DecidableEq, Repr

/-- The `"tables"` field of the parsed JSON document, as
`data.get("tables")` sees it: absent, present but not a list (only its
truthiness matters afterwards), or an actual list of tables. -/
inductive TablesField where
  | missing : TablesField
  | nonList (truthy : Bool) : TablesField
  | list (ts : List PyTable) : TablesField
deriving DecidableEq, Repr

/-- The exception kinds that `json_tables_to_excel` can surface
(`ValidationError` and `FileProcessingError` from `utils/exceptions.py`),
with the exception message. -/
inductive PyError where
  | validationErr (msg : String) : PyError
  | fileProcessingErr (msg : String) : PyError
deriving DecidableEq, Repr

/-- Message text (`str(e)`) of a modelled exception: its message. -/
def PyError.text : PyError → String
  | .validationErr s => s
  | .fileProcessingErr s => s

/-- One worksheet written by `df.to_excel`: sheet name, header row, data
rows. -/
structure Sheet where
  sheetName : String
  headers : List String
  rows : List (List Cell)
deriving DecidableEq, Repr

/-- Model of `JSONToExcelConverter._normalize_rows(rows, num_cols)`: right-pad each
row shorter than `num_cols` with `None` cells, truncate each row longer
than `num_cols`. -/
def normalize_rows (rows : List (List Cell)) (num_cols : Nat) : List (List Cell) :=
  rows.map (fun row =>
    if row.length < num_cols then row ++ List.replicate (num_cols - row.length) (none : Option String)
    else if row.length > num_cols then row.take num_cols
    else row)

/-- The body of the per-table loop of `json_tables_to_excel`: determine the
column count (headers first, else the maximum row length, default 0),
normalize the rows, truncate an over-long header row, synthesize
`col_1 .. col_N` when headers are empty, and emit the sheet `Table{idx}`. -/
def processTable (idx : Nat) (t : PyTable) : Sheet :=
  let headers := t.headers
  let rows := t.rows
  let num_cols := if ¬ headers.isEmpty then headers.length
    else (rows.map List.length).foldr max 0
  let rows_norm := normalize_rows rows num_cols
  let headers1 := if ¬ headers.isEmpty ∧ headers.length ≠ num_cols then headers.take num_cols
    else headers
  let headers2 := if headers1.isEmpty then
      (List.range num_cols).map (fun i => "col_" ++ toString (i + 1))
    else headers1
  { sheetName := "Table" ++ toString idx, headers := headers2, rows := rows_norm }

/-- The `try`-block body of `json_tables_to_excel`, from the point where the
JSON document is parsed: `tables = data.get("tables") or []`, the
validation check `isinstance(tables, list) and tables`, raising
`ValidationError` on failure, then the per-table loop writing the sheets in
order (sheet numbering starts at 1). -/
def json_tables_to_excel_body (tf : TablesField) : Except PyError (List Sheet) :=
  let tables : Option (List PyTable) :=
    match tf with
    | .missing => some []
    | .nonList truthy => if truthy then none else some []
    | .list ts => some ts
  match tables with
  | none => .error (.validationErr "JSON에 tables 항목이 없거나 비어있습니다.")
  | some ts =>
    if ts.isEmpty then .error (.validationErr "JSON에 tables 항목이 없거나 비어있습니다.")
    else .ok (ts.enum.map (fun p => processTable (p.1 + 1) p.2))

/-- Model of `json_tables_to_excel` as the caller sees it: the `try` body wrapped by
`except Exception as e: raise FileProcessingError(f"Excel 변환 실패: {e}")`,
which turns every escaping exception — the `ValidationError` included —
into a `FileProcessingError`. -/
def json_tables_to_excel (tf : TablesField) : Except PyError (List Sheet) :=
  match json_tables_to_excel_body tf with
  | .ok r => .ok r
  | .error e => .error (.fileProcessingErr ("Excel 변환 실패: " ++ e.text))

/-! Theorems -/

/-- The target column count stated by the claim for one table: the header count when
headers are present, otherwise the maximum row length (0 for no rows). -/
def targetCols (t : PyTable) : Nat :=
  if t.headers = [] then (t.rows.map List.length).foldr max 0 else t.headers.length

/-- The per-row adjustment stated by the claim: right-pad a short row with nulls,
truncate a long row to its first `n` cells. -/
def padOrTruncate (n : Nat) (r : List Cell) : List Cell :=
  if r.length < n then r ++ List.replicate (n - r.length) (none : Cell)
  else r.take n

theorem normalize_rows_eq_padOrTruncate (rows : List (List Cell)) (n : Nat) :
    normalize_rows rows n = rows.map (padOrTruncate n) := by
  have h : ∀ r : List Cell,
      (if r.length < n then r ++ List.replicate (n - r.length) (none : Option String)
       else if r.length > n then r.take n
       else r) = padOrTruncate n r := by
    intro r
    unfold padOrTruncate
    by_cases h1 : r.length < n
    · simp [h1]
    · by_cases h2 : r.length > n
      · simp [h1, h2]
      · have hlen : n = r.length := by omega
        simp [h1, h2, hlen, List.take_length]
  unfold normalize_rows
  exact congrArg rows.map (funext h)

/-- C2: per-table normalization. with `H` the raw headers and `R` the
raw rows, the target width is `N = len(H)` when `H` is non-empty and the
maximum row length otherwise; every row is right-padded with nulls or
truncated to exactly `N` cells; empty headers are synthesized as
`col_1 .. col_N`; and the emitted sheet is rectangular — header row and
every data row have length `N`. -/
theorem c2_table_normalization (idx : Nat) (t : PyTable) :
    (processTable idx t).rows = t.rows.map (padOrTruncate (targetCols t)) ∧
    (processTable idx t).headers =
      (if t.headers = [] then
        (List.range (targetCols t)).map (fun i => "col_" ++ toString (i + 1))
       else t.headers) ∧
    (processTable idx t).headers.length = targetCols t ∧
    (∀ row ∈ (processTable idx t).rows, row.length = targetCols t) := by
  have hN : (if ¬ t.headers.isEmpty then t.headers.length
      else (t.rows.map List.length).foldr max 0) = targetCols t := by
    unfold targetCols
    by_cases h : t.headers = [] <;> simp [h, List.isEmpty_iff]
  by_cases h : t.headers = []
  · have hrows : (processTable idx t).rows = normalize_rows t.rows (targetCols t) := by
      simp only [processTable, hN]
    have hheads : (processTable idx t).headers =
        (List.range (targetCols t)).map (fun i => "col_" ++ toString (i + 1)) := by
      simp only [processTable, hN]
      simp [h]
    refine ⟨hrows.trans (normalize_rows_eq_padOrTruncate _ _), ?_, ?_, ?_⟩
    · rw [hheads]; simp [h]
    · rw [hheads]; simp
    · intro row hrow
      rw [hrows.trans (normalize_rows_eq_padOrTruncate _ _)] at hrow
      obtain ⟨r, -, rfl⟩ := List.mem_map.mp hrow
      unfold padOrTruncate
      by_cases h1 : r.length < targetCols t <;> simp [h1] <;> omega
  · have hne : ¬ t.headers.isEmpty := by simp [List.isEmpty_iff, h]
    have hNval : targetCols t = t.headers.length := by unfold targetCols; simp [h]
    have hrows : (processTable idx t).rows = normalize_rows t.rows (targetCols t) := by
      simp only [processTable, hN]
    have hheads : (processTable idx t).headers = t.headers := by
      simp only [processTable, hN]
      simp [h, hne, hNval.symm, List.isEmpty_iff]
    refine ⟨hrows.trans (normalize_rows_eq_padOrTruncate _ _), ?_, ?_, ?_⟩
    · rw [hheads]; simp [h]
    · rw [hheads, hNval]
    · intro row hrow
      rw [hrows.trans (normalize_rows_eq_padOrTruncate _ _)] at hrow
      obtain ⟨r, -, rfl⟩ := List.mem_map.mp hrow
      unfold padOrTruncate
      by_cases h1 : r.length < targetCols t <;> simp [h1] <;> omega

theorem c2_table_normalization_witness :
    (processTable 1 ⟨["a", "b"], [[some "1"], [some "2", some "3", some "4"]]⟩).rows =
      [[some "1", none], [some "2", some "3"]] ∧
    (processTable 1 ⟨["a", "b"],
      [[some "1"], [some "2", some "3", some "4"]]⟩).headers = ["a", "b"] := by
  have h := c2_table_normalization 1
    ⟨["a", "b"], [[some "1"], [some "2", some "3", some "4"]]⟩
  exact ⟨h.1.trans (by decide), h.2.1.trans (by decide)⟩

/-- C1 (code bug): for a document whose `tables` field is missing, not
a list, or the empty list, the `try`-body of `json_tables_to_excel` does
reject the input with a `ValidationError` before any per-table processing
(no sheet is produced) — but the `except Exception` wrapper at the end of
the method converts that exception, so what actually reaches the caller is
a `FileProcessingError`, not the distinct `ValidationError` kind that the
claim (and the method's own docstring) promises. -/
theorem c1_validation_error_wrapped :
    (json_tables_to_excel_body .missing =
        .error (.validationErr "JSON에 tables 항목이 없거나 비어있습니다.") ∧
      json_tables_to_excel_body (.nonList true) =
        .error (.validationErr "JSON에 tables 항목이 없거나 비어있습니다.") ∧
      json_tables_to_excel_body (.nonList false) =
        .error (.validationErr "JSON에 tables 항목이 없거나 비어있습니다.") ∧
      json_tables_to_excel_body (.list []) =
        .error (.validationErr "JSON에 tables 항목이 없거나 비어있습니다.")) ∧
    (json_tables_to_excel .missing =
        .error (.fileProcessingErr
          ("Excel 변환 실패: " ++ "JSON에 tables 항목이 없거나 비어있습니다.")) ∧
      json_tables_to_excel (.nonList true) =
        .error (.fileProcessingErr
          ("Excel 변환 실패: " ++ "JSON에 tables 항목이 없거나 비어있습니다.")) ∧
      json_tables_to_excel (.nonList false) =
        .error (.fileProcessingErr
          ("Excel 변환 실패: " ++ "JSON에 tables 항목이 없거나 비어있습니다.")) ∧
      json_tables_to_excel (.list []) =
        .error (.fileProcessingErr
          ("Excel 변환 실패: " ++ "JSON에 tables 항목이 없거나 비어있습니다."))) :=
  ⟨⟨rfl, rfl, rfl, rfl⟩, ⟨rfl, rfl, rfl, rfl⟩⟩

/-! Order lemmas for the sort key -/

theorem lexLe_refl (l : List Char) : lexLe l l = true := by
  induction l with
  | nil => rfl
  | cons a as ih => simp [lexLe, Nat.lt_irrefl, ih]

theorem lexLe_total (a b : List Char) : lexLe a b = true ∨ lexLe b a = true := by
  induction a generalizing b with
  | nil => left; rfl
  | cons x xs ih =>
    cases b with
    | nil => right; rfl
    | cons y ys =>
      rcases Nat.lt_trichotomy x.toNat y.toNat with h | h | h
      · left; simp [lexLe, h]
      · have h' : ¬ x.toNat < y.toNat := by omega
        have h'' : ¬ y.toNat < x.toNat := by omega
        rcases ih ys with hle | hle
        · left; simp [lexLe, h', h'', hle]
        · right; simp [lexLe, h', h'', hle]
      · right; simp [lexLe, h]

theorem lexLe_trans {a b c : List Char} (hab : lexLe a b = true)
    (hbc : lexLe b c = true) : lexLe a c = true := by
  induction a generalizing b c with
  | nil => rfl
  | cons x xs ih =>
    cases b with
    | nil => simp [lexLe] at hab
    | cons y ys =>
      cases c with
      | nil => simp [lexLe] at hbc
      | cons z zs =>
        simp only [lexLe] at hab hbc ⊢
        by_cases hxy : x.toNat < y.toNat
        · by_cases hyz : y.toNat < z.toNat
          · have : x.toNat < z.toNat := by omega
            simp [this]
          · by_cases hzy : z.toNat < y.toNat
            · simp [hyz, hzy] at hbc
            · have : x.toNat < z.toNat := by omega
              simp [this]
        · by_cases hyx : y.toNat < x.toNat
          · simp [hxy, hyx] at hab
          · by_cases hyz : y.toNat < z.toNat
            · have : x.toNat < z.toNat := by omega
              simp [this]
            · by_cases hzy : z.toNat < y.toNat
              · simp [hyz, hzy] at hbc
              · have h1 : ¬ x.toNat < z.toNat := by omega
                have h2 : ¬ z.toNat < x.toNat := by omega
                simp [hxy, hyx] at hab
                simp [hyz, hzy] at hbc
                simp [h1, h2]
                exact ih hab hbc

/-! The head of the stable descending sort -/

theorem sortDesc_head (cy : Nat) (l : List Msg) :
    (sortDesc cy l).head? = selectLatest cy l := by
  induction l with
  | nil => rfl
  | cons m ms ih =>
    show (insertDesc cy m (sortDesc cy ms)).head? = _
    cases h : sortDesc cy ms with
    | nil =>
      rw [h] at ih
      simp only [selectLatest, ← ih]
      rfl
    | cons x xs =>
      rw [h] at ih
      simp only [selectLatest, ← ih, insertDesc]
      by_cases hle : lexLe (sortKey cy x) (sortKey cy m) = true
      · simp [hle]
      · simp [hle]

theorem selectLatest_mem {cy : Nat} {l : List Msg} {b : Msg}
    (h : selectLatest cy l = some b) : b ∈ l := by
  induction l with
  | nil => simp [selectLatest] at h
  | cons m ms ih =>
    simp only [selectLatest] at h
    cases hsel : selectLatest cy ms with
    | none => rw [hsel] at h; simp at h; simp [h]
    | some b' =>
      rw [hsel] at h
      by_cases hle : lexLe (sortKey cy b') (sortKey cy m) = true
      · simp [hle] at h; simp [h]
      · simp [hle] at h
        exact List.mem_cons_of_mem m (ih (h ▸ hsel))

theorem find_latest_eq_selectLatest (cy : Nat) (msgs : List Msg) :
    find_latest_message cy msgs = selectLatest cy msgs := by
  cases msgs with
  | nil => rfl
  | cons m ms =>
    show (sortDesc cy (m :: ms)).head? = _
    exact sortDesc_head cy (m :: ms)

/-- Membership in a `take`-prefix, from an index bound. -/
theorem get_mem_take {α} : ∀ (l : List α) (i j : Nat), j < i →
    ∀ hl : j < l.length, l.get ⟨j, hl⟩ ∈ l.take i := by
  intro l
  induction l with
  | nil => intro i j _hj hl; simp at hl
  | cons a as ih =>
    intro i j hj hl
    cases i with
    | zero => omega
    | succ i' =>
      cases j with
      | zero => simp
      | succ j' =>
        simp only [List.take_succ_cons]
        exact List.mem_cons_of_mem a (ih i' j' (by omega) (by simpa using hl))

/-- The earliest-maximum characterization of `selectLatest`. -/
theorem selectLatest_spec (cy : Nat) (msgs : List Msg) (h : msgs ≠ []) :
    ∃ i, ∃ hi : i < msgs.length,
      selectLatest cy msgs = some (msgs.get ⟨i, hi⟩) ∧
      (∀ m' ∈ msgs, lexLe (sortKey cy m') (sortKey cy (msgs.get ⟨i, hi⟩)) = true) ∧
      (∀ m' ∈ msgs.take i,
        lexLe (sortKey cy (msgs.get ⟨i, hi⟩)) (sortKey cy m') = false) := by
  induction msgs with
  | nil => exact absurd rfl h
  | cons m ms ih =>
    cases hms : ms with
    | nil =>
      refine ⟨0, by simp, ?_, ?_, ?_⟩
      · rfl
      · intro m' hm'
        simp at hm'
        simp [hm', lexLe_refl]
      · intro m' hm'
        simp at hm'
    | cons m2 ms' =>
      rw [← hms]
      have hne : ms ≠ [] := by simp [hms]
      obtain ⟨i', hi', heq, hmax, hfirst⟩ := ih hne
      by_cases hle : lexLe (sortKey cy (ms.get ⟨i', hi'⟩)) (sortKey cy m) = true
      · refine ⟨0, by simp, ?_, ?_, ?_⟩
        · simp only [selectLatest, heq, hle]
          rfl
        · intro m' hm'
          rcases List.mem_cons.mp hm' with rfl | hm'
          · exact lexLe_refl _
          · exact lexLe_trans (hmax m' hm') hle
        · intro m' hm'
          simp at hm'
      · refine ⟨i' + 1, by simpa using Nat.succ_lt_succ hi', ?_, ?_, ?_⟩
        · simp only [selectLatest, heq, hle]
          rfl
        · intro m' hm'
          rcases List.mem_cons.mp hm' with rfl | hm'
          · rcases lexLe_total (sortKey cy m') (sortKey cy (ms.get ⟨i', hi'⟩)) with
              hx | hx
            · exact hx
            · exact absurd hx hle
          · exact hmax m' hm'
        · intro m' hm'
          simp only [List.take_succ_cons] at hm'
          rcases List.mem_cons.mp hm' with rfl | hm'
          · exact Bool.eq_false_iff.mpr hle
          · exact hfirst m' hm'

/-- C3: with no target date, selection returns exactly the
earliest-in-input candidate whose sort key (the parsed subject date, an
unparseable subject counting as `"00000000"`) is lexicographically
greatest: the empty list yields `none`; a non-empty list yields an index
`i` whose key dominates every candidate and strictly dominates every
earlier candidate; and conversely any index with that property is the one
returned. -/
theorem c3_latest_selection (cy : Nat) (msgs : List Msg) :
    (msgs = [] → find_latest_message cy msgs = none) ∧
    (msgs ≠ [] → ∃ i, ∃ hi : i < msgs.length,
      find_latest_message cy msgs = some (msgs.get ⟨i, hi⟩) ∧
      (∀ m' ∈ msgs, lexLe (sortKey cy m') (sortKey cy (msgs.get ⟨i, hi⟩)) = true) ∧
      (∀ m' ∈ msgs.take i,
        lexLe (sortKey cy (msgs.get ⟨i, hi⟩)) (sortKey cy m') = false)) ∧
    (∀ i, ∀ hi : i < msgs.length,
      (∀ m' ∈ msgs, lexLe (sortKey cy m') (sortKey cy (msgs.get ⟨i, hi⟩)) = true) →
      (∀ m' ∈ msgs.take i,
        lexLe (sortKey cy (msgs.get ⟨i, hi⟩)) (sortKey cy m') = false) →
      find_latest_message cy msgs = some (msgs.get ⟨i, hi⟩)) := by
  refine ⟨fun h => by simp [h, find_latest_message], ?_, ?_⟩
  · intro h
    rw [find_latest_eq_selectLatest]
    exact selectLatest_spec cy msgs h
  · intro i hi hmax hfirst
    have hne : msgs ≠ [] := by
      intro h
      rw [h] at hi
      simp at hi
    obtain ⟨i0, hi0, heq, hmax0, hfirst0⟩ := selectLatest_spec cy msgs hne
    have hii : i = i0 := by
      by_contra hne'
      rcases Nat.lt_or_ge i i0 with hlt | hge
      · have hmem : msgs.get ⟨i, hi⟩ ∈ msgs.take i0 := get_mem_take msgs i0 i hlt hi
        have h1 := hfirst0 _ hmem
        have h2 := hmax _ (msgs.get_mem i0 hi0)
        exact absurd h2 (Bool.eq_false_iff.mp h1)
      · have hlt : i0 < i := by omega
        have hmem : msgs.get ⟨i0, hi0⟩ ∈ msgs.take i := get_mem_take msgs i i0 hlt hi0
        have h1 := hfirst _ hmem
        have h2 := hmax0 _ (msgs.get_mem i hi)
        exact absurd h2 (Bool.eq_false_iff.mp h1)
    subst hii
    rw [find_latest_eq_selectLatest, heq]

/-- Concrete candidate list for latest-message selection (the repository's
own test data): the middle candidate bears the greatest date. -/
def demoLatest : List Msg :=
  [⟨some "2025년09월04일 테스트", 1⟩,
   ⟨some "2025년09월06일 테스트", 2⟩,
   ⟨some "2025년09월05일 테스트", 3⟩]

theorem c3_latest_selection_witness :
    find_latest_message 2030 ([] : List Msg) = none ∧
    find_latest_message 2030 demoLatest = some (demoLatest.get ⟨1, by decide⟩) :=
  ⟨(c3_latest_selection 2030 []).1 rfl,
   (c3_latest_selection 2030 demoLatest).2.2 1 (by decide) (by decide) (by decide)⟩

/-- C7: with a target date, selection is the first-match scan: the
empty list yields `none`; if no candidate's parsed subject date equals the
target the result is `none`; and whenever the candidate at index `i`
parses to the target while every earlier candidate does not, the result is
exactly that candidate. -/
theorem c7_find_by_date (cy : Nat) (msgs : List Msg) (target : String) :
    (msgs = [] → find_message_by_date cy msgs target = none) ∧
    ((∀ m' ∈ msgs, parseDateChars cy (getSubject m').toList ≠ some target.toList) →
      find_message_by_date cy msgs target = none) ∧
    (∀ i, ∀ hi : i < msgs.length,
      parseDateChars cy (getSubject (msgs.get ⟨i, hi⟩)).toList = some target.toList →
      (∀ m' ∈ msgs.take i,
        parseDateChars cy (getSubject m').toList ≠ some target.toList) →
      find_message_by_date cy msgs target = some (msgs.get ⟨i, hi⟩)) := by
  refine ⟨fun h => by simp [h, find_message_by_date], ?_, ?_⟩
  · intro hnone
    induction msgs with
    | nil => rfl
    | cons m ms ih =>
      have hm := hnone m (List.mem_cons_self m ms)
      simp only [find_message_by_date, if_neg hm]
      exact ih fun m' hm' => hnone m' (List.mem_cons_of_mem m hm')
  · induction msgs with
    | nil => intro i hi; simp at hi
    | cons m ms ih =>
      intro i hi hparse hearlier
      cases i with
      | zero =>
        simp only [List.get] at hparse
        simp only [find_message_by_date, if_pos hparse]
        rfl
      | succ i' =>
        have hm : parseDateChars cy (getSubject m).toList ≠ some target.toList := by
          refine hearlier m ?_
          simp [List.take_succ_cons]
        simp only [find_message_by_date, if_neg hm]
        exact ih i' (by simpa using hi) hparse
          (fun m' hm' => hearlier m' (by simp [List.take_succ_cons, hm']))

/-- Concrete candidate list for target-date selection (the repository's
own test data). -/
def demoByDate : List Msg :=
  [⟨some "2025년09월04일 테스트", 1⟩,
   ⟨some "2025년09월05일 테스트", 2⟩,
   ⟨some "일반 제목", 3⟩]

theorem c7_find_by_date_witness :
    find_message_by_date 2030 ([] : List Msg) "20250904" = none ∧
    find_message_by_date 2030 demoByDate "20250910" = none ∧
    find_message_by_date 2030 demoByDate "20250904" = some (demoByDate.get ⟨0, by decide⟩) :=
  ⟨(c7_find_by_date 2030 [] "20250904").1 rfl,
   (c7_find_by_date 2030 demoByDate "20250910").2.1 (by decide),
   (c7_find_by_date 2030 demoByDate "20250904").2.2 0 (by decide) (by decide) (by decide)⟩

/-- C10: a candidate dictionary without a `'subject'` key is handled
without raising: `dict.get('subject', '')` yields the empty subject, whose
parse is `None`; in latest mode its sort key is therefore `"00000000"`;
and in target-date mode such a candidate never matches, so prepending it
to any candidate list leaves the search result unchanged. -/
theorem c10_missing_subject (cy : Nat) (m : Msg) (target : String)
    (msgs : List Msg) (h : m.subject? = none) :
    parseDateChars cy (getSubject m).toList = none ∧
    sortKey cy m = "00000000".toList ∧
    find_message_by_date cy (m :: msgs) target = find_message_by_date cy msgs target := by
  have hsubj : getSubject m = "" := by simp [getSubject, h]
  have hparse : parseDateChars cy (getSubject m).toList = none := by
    rw [hsubj]; rfl
  refine ⟨hparse, ?_, ?_⟩
  · unfold sortKey
    rw [hparse]
    rfl
  · simp only [find_message_by_date, hparse]
    simp

theorem c10_missing_subject_witness :
    parseDateChars 2025 (getSubject ⟨none, 7⟩).toList = none ∧
    sortKey 2025 ⟨none, 7⟩ = "00000000".toList ∧
    find_message_by_date 2025 (⟨none, 7⟩ :: demoByDate) "20250904" =
      find_message_by_date 2025 demoByDate "20250904" :=
  c10_missing_subject 2025 ⟨none, 7⟩ "20250904" demoByDate rfl

/-- C4 (counterexample): the selector is *not* independent of the wall
clock: `parse_date_from_subject` substitutes `datetime.now().year` for a
no-year `월…일` subject, so the very same candidate list and target date
give different results when the current year differs. -/
theorem c4_counterexample :
    find_message_by_date 2025 [⟨some "3월4일 보고", 0⟩] "20250304" =
      some ⟨some "3월4일 보고", 0⟩ ∧
    find_message_by_date 2026 [⟨some "3월4일 보고", 0⟩] "20250304" = none ∧
    sortKey 2025 ⟨some "3월4일 보고", 0⟩ ≠ sortKey 2026 ⟨some "3월4일 보고", 0⟩ := by
  refine ⟨by decide, by decide, by decide⟩

/-- C4 (amended): the selectors are total functions of the candidate
list, the target date, and the current calendar year, and they depend on
the current year only through the parsed subject dates: whenever two
current-year values give every candidate the same parsed date, both
selection modes return identical results. -/
theorem c4_determinism_modulo_year (cy₁ cy₂ : Nat) (msgs : List Msg)
    (target : String)
    (h : ∀ m ∈ msgs,
      parseDateChars cy₁ (getSubject m).toList = parseDateChars cy₂ (getSubject m).toList) :
    find_message_by_date cy₁ msgs target = find_message_by_date cy₂ msgs target ∧
    find_latest_message cy₁ msgs = find_latest_message cy₂ msgs := by
  have hkey : ∀ m ∈ msgs, sortKey cy₁ m = sortKey cy₂ m := by
    intro m hm
    unfold sortKey
    rw [h m hm]
  constructor
  · induction msgs with
    | nil => rfl
    | cons m ms ih =>
      have hm := h m (List.mem_cons_self m ms)
      simp only [find_message_by_date, hm]
      split
      · rfl
      · exact ih (fun m' hm' => h m' (List.mem_cons_of_mem m hm'))
          (fun m' hm' => hkey m' (List.mem_cons_of_mem m hm'))
  · rw [find_latest_eq_selectLatest, find_latest_eq_selectLatest]
    clear h
    induction msgs with
    | nil => rfl
    | cons m ms ih =>
      have hih : selectLatest cy₁ ms = selectLatest cy₂ ms :=
        ih (fun m' hm' => hkey m' (List.mem_cons_of_mem m hm'))
      simp only [selectLatest, hih]
      cases hsel : selectLatest cy₂ ms with
      | none => rfl
      | some b =>
        have hb : b ∈ ms := selectLatest_mem hsel
        have h1 := hkey b (List.mem_cons_of_mem m hb)
        have h2 := hkey m (List.mem_cons_self m ms)
        show (if lexLe (sortKey cy₁ b) (sortKey cy₁ m) = true then some m else some b) =
          (if lexLe (sortKey cy₂ b) (sortKey cy₂ m) = true then some m else some b)
        rw [h1, h2]

/-! Pattern-1 decomposition lemmas -/

/-- The pattern-1 formatting of a `(year, month, day)` match:
`f"{year}{month.zfill(2)}{day.zfill(2)}"`. -/
def fmtP1 (r : List Char × List Char × List Char) : String :=
  String.mk (r.1 ++ zfill2 r.2.1 ++ zfill2 r.2.2)

theorem searchP1_isSome_of_drop (l : List Char) (k : Nat)
    (h : (matchP1At (l.drop k)).isSome = true) : (searchP1 l).isSome = true := by
  induction l generalizing k with
  | nil => simp [List.drop_nil, matchP1At] at h
  | cons c rest ih =>
    cases hm : matchP1At (c :: rest) with
    | some r => simp [searchP1, hm]
    | none =>
      cases k with
      | zero =>
        simp only [List.drop_zero] at h
        rw [hm] at h
        simp at h
      | succ k' =>
        have := ih k' (by simpa using h)
        simpa [searchP1, hm] using this

/-- A one- or two-digit group followed by its marker character is matched
exactly, greedily, by `matchDigits12`. -/
theorem matchDigits12_group (marker : Char) (g rest : List Char)
    (hmk : marker.isDigit = false)
    (hg : g.all Char.isDigit = true) (h1 : 1 ≤ g.length) (h2 : g.length ≤ 2) :
    matchDigits12 marker (g ++ marker :: rest) = some (g, rest) := by
  rcases g with _ | ⟨a, _ | ⟨b, g'⟩⟩
  · simp at h1
  · have ha : a.isDigit = true := by simpa using hg
    cases rest with
    | nil =>
      show matchDigits12 marker [a, marker] = _
      simp [matchDigits12, ha]
    | cons r rs =>
      show matchDigits12 marker (a :: marker :: r :: rs) = _
      simp [matchDigits12, ha, hmk]
  · rcases g' with _ | ⟨x, g''⟩
    · have hab : a.isDigit = true ∧ b.isDigit = true := by simpa using hg
      show matchDigits12 marker (a :: b :: marker :: rest) = _
      simp [matchDigits12, hab.1, hab.2]
    · simp at h2

/-- A full pattern-1 occurrence anchored at the start of the input is
matched with exactly its year, month and day groups. -/
theorem matchP1At_decomp (y m d post : List Char)
    (hy4 : y.length = 4) (hyd : y.all Char.isDigit = true)
    (hm1 : 1 ≤ m.length) (hm2 : m.length ≤ 2) (hmd : m.all Char.isDigit = true)
    (hd1 : 1 ≤ d.length) (hd2 : d.length ≤ 2) (hdd : d.all Char.isDigit = true) :
    matchP1At (y ++ '년' :: (m ++ '월' :: (d ++ '일' :: post))) = some (y, m, d) := by
  rcases y with _ | ⟨a, _ | ⟨b, _ | ⟨c, _ | ⟨e, _ | ⟨f, y'⟩⟩⟩⟩⟩ <;> simp at hy4
  have hds : a.isDigit = true ∧ b.isDigit = true ∧ c.isDigit = true ∧
      e.isDigit = true := by simpa using hyd
  have hMonth := matchDigits12_group '월' m (d ++ '일' :: post) (by decide) hmd hm1 hm2
  have hDay := matchDigits12_group '일' d post (by decide) hdd hd1 hd2
  show matchP1At (a :: b :: c :: e :: '년' :: (m ++ '월' :: (d ++ '일' :: post))) = _
  simp only [matchP1At]
  rw [if_pos ⟨hds.1, hds.2.1, hds.2.2.1, hds.2.2.2, trivial⟩]
  simp [hMonth, hDay]

/-- Shared backbone of C5 and C8: a subject containing a pattern-1
occurrence makes the pattern-1 search succeed, and the parse result is the
pattern-1 formatting of the (leftmost) search result — no calendar check is
involved and the other patterns are never consulted. -/
theorem parse_of_p1_decomp (cy : Nat) (cs pre y m d post : List Char)
    (hdec : cs = pre ++ (y ++ '년' :: (m ++ '월' :: (d ++ '일' :: post))))
    (hy4 : y.length = 4) (hyd : y.all Char.isDigit = true)
    (hm1 : 1 ≤ m.length) (hm2 : m.length ≤ 2) (hmd : m.all Char.isDigit = true)
    (hd1 : 1 ≤ d.length) (hd2 : d.length ≤ 2) (hdd : d.all Char.isDigit = true) :
    (searchP1 cs).isSome = true ∧
    parse_date_from_subject cy (String.mk cs) = (searchP1 cs).map fmtP1 := by
  have hmatch : (matchP1At (cs.drop pre.length)).isSome = true := by
    rw [hdec, List.drop_left,
      matchP1At_decomp y m d post hy4 hyd hm1 hm2 hmd hd1 hd2 hdd]
    rfl
  have hsome := searchP1_isSome_of_drop cs pre.length hmatch
  refine ⟨hsome, ?_⟩
  obtain ⟨⟨y', m', d'⟩, heq⟩ := Option.isSome_iff_exists.mp hsome
  show (parseDateChars cy (String.mk cs).toList).map String.mk = _
  rw [show (String.mk cs).toList = cs from rfl]
  unfold parseDateChars
  rw [heq]
  rfl

/-- C5: pattern priority. a subject containing a 4-digit-year Korean
date `Y년M월D일` *and* a calendar-valid bare 8-digit run — wherever in the
string that run sits, even before the year-bearing date — is parsed from
the year-bearing pattern: the pattern-1 search succeeds and the parse
result is exactly the pattern-1 formatting of its match. -/
theorem c5_pattern1_priority (cy : Nat) (cs pre y m d post : List Char)
    (hdec : cs = pre ++ (y ++ '년' :: (m ++ '월' :: (d ++ '일' :: post))))
    (hy4 : y.length = 4) (hyd : y.all Char.isDigit = true)
    (hm1 : 1 ≤ m.length) (hm2 : m.length ≤ 2) (hmd : m.all Char.isDigit = true)
    (hd1 : 1 ≤ d.length) (hd2 : d.length ≤ 2) (hdd : d.all Char.isDigit = true)
    (_h8 : ∃ k t, matchP2At (cs.drop k) = some t ∧ validDate8 t = true) :
    (searchP1 cs).isSome = true ∧
    parse_date_from_subject cy (String.mk cs) = (searchP1 cs).map fmtP1 :=
  parse_of_p1_decomp cy cs pre y m d post hdec hy4 hyd hm1 hm2 hmd hd1 hd2 hdd

theorem c5_pattern1_priority_witness :
    (searchP1 "20250101 보고 2024년3월4일".toList).isSome = true ∧
    parse_date_from_subject 2030 (String.mk "20250101 보고 2024년3월4일".toList) =
      (searchP1 "20250101 보고 2024년3월4일".toList).map fmtP1 :=
  c5_pattern1_priority 2030 "20250101 보고 2024년3월4일".toList
    "20250101 보고 ".toList "2024".toList "3".toList "4".toList []
    (by decide) (by decide) (by decide) (by decide) (by decide) (by decide)
    (by decide) (by decide) (by decide)
    ⟨0, "20250101".toList, by decide, by decide⟩

example :
    parse_date_from_subject 2030 "20250101 보고 2024년3월4일" = some "20240304" := by
  decide

/-- C8: the year-bearing pattern applies no calendar check: any subject
containing `Y년M월D일` (4-digit `Y`, 1-2-digit `M` and `D`) parses to the
pattern-1 formatting `Y ++ M.zfill(2) ++ D.zfill(2)` of the leftmost such
occurrence, with no validity condition on the month or day values. -/
theorem c8_pattern1_no_calendar_check (cy : Nat) (cs pre y m d post : List Char)
    (hdec : cs = pre ++ (y ++ '년' :: (m ++ '월' :: (d ++ '일' :: post))))
    (hy4 : y.length = 4) (hyd : y.all Char.isDigit = true)
    (hm1 : 1 ≤ m.length) (hm2 : m.length ≤ 2) (hmd : m.all Char.isDigit = true)
    (hd1 : 1 ≤ d.length) (hd2 : d.length ≤ 2) (hdd : d.all Char.isDigit = true) :
    (searchP1 cs).isSome = true ∧
    parse_date_from_subject cy (String.mk cs) = (searchP1 cs).map fmtP1 :=
  parse_of_p1_decomp cy cs pre y m d post hdec hy4 hyd hm1 hm2 hmd hd1 hd2 hdd

theorem c8_pattern1_no_calendar_check_witness :
    (searchP1 "회의 2025년13월40일 자료".toList).isSome = true ∧
    parse_date_from_subject 2030 (String.mk "회의 2025년13월40일 자료".toList) =
      (searchP1 "회의 2025년13월40일 자료".toList).map fmtP1 :=
  c8_pattern1_no_calendar_check 2030 "회의 2025년13월40일 자료".toList
    "회의 ".toList "2025".toList "13".toList "40".toList " 자료".toList
    (by decide) (by decide) (by decide) (by decide) (by decide) (by decide)
    (by decide) (by decide) (by decide)

example :
    parse_date_from_subject 2030 "회의 2025년13월40일 자료" = some "20251340" := by
  decide

/-- C6: when no year-bearing date occurs and the *first* 8-digit run is
not a valid calendar date, the 8-digit pattern is abandoned entirely — the
parse falls through to the no-year `월…일` pattern (other 8-digit runs are
never retried) — and when a `M월D일` occurrence exists the result is the
current year concatenated with the zero-padded month and day. -/
theorem c6_invalid_run_skipped (cy : Nat) (cs t m d : List Char)
    (h1 : searchP1 cs = none)
    (h2 : searchP2 cs = some t)
    (h3 : validDate8 t = false) :
    parse_date_from_subject cy (String.mk cs) = (pattern3Result cy cs).map String.mk ∧
    (searchP3 cs = some (m, d) →
      parse_date_from_subject cy (String.mk cs) =
        some (String.mk ((toString cy).toList ++ zfill2 m ++ zfill2 d))) := by
  have key : parseDateChars cy cs = pattern3Result cy cs := by
    unfold parseDateChars
    rw [h1, h2]
    simp [h3]
  constructor
  · show (parseDateChars cy (String.mk cs).toList).map String.mk = _
    rw [show (String.mk cs).toList = cs from rfl, key]
  · intro h4
    show (parseDateChars cy (String.mk cs).toList).map String.mk = _
    rw [show (String.mk cs).toList = cs from rfl, key]
    unfold pattern3Result
    rw [h4]
    rfl

theorem c6_invalid_run_skipped_witness :
    parse_date_from_subject 2025 (String.mk "99999999 20250102 회의 3월4일".toList) =
      some (String.mk ((toString 2025).toList ++ zfill2 "3".toList ++ zfill2 "4".toList)) :=
  (c6_invalid_run_skipped 2025 "99999999 20250102 회의 3월4일".toList
    "99999999".toList "3".toList "4".toList
    (by decide) (by decide) (by decide)).2 (by decide)

example :
    parse_date_from_subject 2025 "99999999 20250102 회의 3월4일" = some "20250304" := by
  decide

/-! C9 helper lemmas: no boundary requirement on the 8-digit pattern -/

theorem searchP2_append_nondigit (pre l : List Char)
    (hpre : pre.all (fun c => !c.isDigit) = true) :
    searchP2 (pre ++ l) = searchP2 l := by
  induction pre with
  | nil => rfl
  | cons c pre' ih =>
    have hc : c.isDigit = false := by
      have := (List.all_eq_true.mp hpre) c (List.mem_cons_self c pre')
      simpa using this
    have hpre' : pre'.all (fun c => !c.isDigit) = true :=
      List.all_eq_true.mpr fun x hx =>
        (List.all_eq_true.mp hpre) x (List.mem_cons_of_mem c hx)
    show searchP2 (c :: (pre' ++ l)) = _
    have hm : matchP2At (c :: (pre' ++ l)) = none := by
      unfold matchP2At
      rw [if_neg]
      rintro ⟨-, hall⟩
      rw [List.take_succ_cons] at hall
      simp [hc] at hall
    simp [searchP2, hm, ih hpre']

theorem searchP2_run (run post : List Char) (hrun : run.all Char.isDigit = true)
    (hlen : 8 ≤ run.length) :
    searchP2 (run ++ post) = some (run.take 8) := by
  rcases run with _ | ⟨r, run'⟩
  · simp at hlen
  · have htake : (r :: (run' ++ post)).take 8 = (r :: run').take 8 :=
      List.take_append_of_le_length hlen
    have hm : matchP2At (r :: (run' ++ post)) = some ((r :: run').take 8) := by
      unfold matchP2At
      rw [if_pos]
      · rw [htake]
      constructor
      · rw [htake, List.length_take]
        omega
      · rw [htake]
        exact List.all_eq_true.mpr fun x hx =>
          (List.all_eq_true.mp hrun) x (List.take_subset 8 _ hx)
    show searchP2 (r :: (run' ++ post)) = _
    simp only [searchP2]
    rw [hm]

/-- C9: the 8-digit pattern has no boundary requirement: when the first
digit run of the subject is longer than eight digits (and no year-bearing
pattern intervenes), the 8-digit search takes exactly the first eight
digits of that run, and the parse returns them whenever that prefix is a
valid calendar date — even though the run is not a standalone 8-digit
token. -/
theorem c9_no_boundary (cy : Nat) (cs pre run post : List Char)
    (hdec : cs = pre ++ (run ++ post))
    (hpre : pre.all (fun c => !c.isDigit) = true)
    (hrun : run.all Char.isDigit = true)
    (hlen : 8 < run.length)
    (hp1 : searchP1 cs = none) :
    searchP2 cs = some (run.take 8) ∧
    (validDate8 (run.take 8) = true →
      parse_date_from_subject cy (String.mk cs) = some (String.mk (run.take 8))) := by
  have h2 : searchP2 cs = some (run.take 8) := by
    rw [hdec, searchP2_append_nondigit pre _ hpre,
      searchP2_run run post hrun (by omega)]
  refine ⟨h2, fun hv => ?_⟩
  show (parseDateChars cy (String.mk cs).toList).map String.mk = _
  rw [show (String.mk cs).toList = cs from rfl]
  unfold parseDateChars
  rw [hp1, h2]
  simp [hv]

theorem c9_no_boundary_witness :
    searchP2 "문서 2024010255 안내".toList = some ("2024010255".toList.take 8) ∧
    parse_date_from_subject 2030 (String.mk "문서 2024010255 안내".toList) =
      some (String.mk ("2024010255".toList.take 8)) :=
  ⟨(c9_no_boundary 2030 "문서 2024010255 안내".toList "문서 ".toList
      "2024010255".toList " 안내".toList
      (by decide) (by decide) (by decide) (by decide) (by decide)).1,
   (c9_no_boundary 2030 "문서 2024010255 안내".toList "문서 ".toList
      "2024010255".toList " 안내".toList
      (by decide) (by decide) (by decide) (by decide) (by decide)).2 (by decide)⟩

example :
    parse_date_from_subject 2030 "문서 2024010255 안내" = some "20240102" := by
  decide

theorem c4_determinism_modulo_year_witness :
    find_message_by_date 2025 demoByDate "20250904" =
      find_message_by_date 2026 demoByDate "20250904" ∧
    find_latest_message 2025 demoByDate = find_latest_message 2026 demoByDate :=
  c4_determinism_modulo_year 2025 2026 demoByDate "20250904" (by decide)

end JoyFood
